import Mathlib

/-!
Shallow embedding of the tiered-cache core of `status-im/proxy-common`:
the entry/TTL model (`models/cache.go`), the L1 BigCache backend
(`cache/l1/bigcache.go`), the L2 KeyDB backend (`cache/l2/keydb.go`) and
the tier orchestrator `MultiCache` (`cache/multi`).

Times are unix seconds (`Int`); durations are whole seconds (`Int`),
matching the Go code's `int64(ttl.Fresh.Seconds())` conversions.
Payload bytes are modelled as `List Nat`.  Stateful backend calls are
embedded by passing the observed fetch outcome explicitly and by
returning the new stored value (for `Set`); orchestrator side effects on
the tiers are embedded as an explicit event trace.
-/

/-- TTL from `models/cache.go`: `{ Fresh, Stale : time.Duration }`,
kept in whole seconds. -/
structure TTL where
  fresh : Int
  stale : Int
deriving Repr, DecidableEq

/-- CacheEntry from `models/cache.go`: `{ Data []byte; ExpiresAt, StaleAt,
CreatedAt int64 }`. -/
structure CacheEntry where
  data : List Nat
  expiresAt : Int
  staleAt : Int
  createdAt : Int
deriving Repr, DecidableEq

/-- `CacheEntry.IsExpired` (models/cache.go:118-121): `now > ce.ExpiresAt`,
with `now` passed explicitly instead of read from the wall clock. -/
def CacheEntry.IsExpired (ce : CacheEntry) (now : Int) : Bool :=
  now > ce.expiresAt

/-- `CacheEntry.IsFresh` (models/cache.go:124-127): `now <= ce.StaleAt`. -/
def CacheEntry.IsFresh (ce : CacheEntry) (now : Int) : Bool :=
  now ≤ ce.staleAt

/-- `CacheEntry.RemainingTTL` (models/cache.go:130-147): fresh remaining is
`StaleAt - now` clamped at 0, stale remaining is `ExpiresAt - StaleAt`
clamped at 0. -/
def CacheEntry.RemainingTTL (ce : CacheEntry) (now : Int) : TTL :=
  let freshRemaining := ce.staleAt - now
  let freshRemaining := if freshRemaining < 0 then 0 else freshRemaining
  let staleRemaining := ce.expiresAt - ce.staleAt
  let staleRemaining := if staleRemaining < 0 then 0 else staleRemaining
  { fresh := freshRemaining, stale := staleRemaining }

/-- What a backend finds stored under a key once the raw bytes are decoded:
either the payload fails `json.Unmarshal` or it decodes to an entry. -/
inductive RawPayload where
  | undecodable
  | enc (e : CacheEntry)
deriving Repr, DecidableEq

/-- The entry literal both `BigCache.Set` (bigcache.go:123-128) and
`KeyDBCache.Set` (keydb.go:127-132) build from `(val, ttl, now)`:
`CreatedAt = now`, `StaleAt = now + fresh`, `ExpiresAt = now + fresh + stale`. -/
def makeEntry (val : List Nat) (ttl : TTL) (now : Int) : CacheEntry :=
  { data := val
    createdAt := now
    staleAt := now + ttl.fresh
    expiresAt := now + ttl.fresh + ttl.stale }

/-- `BigCache.Get` (cache/l1/bigcache.go:76-96).  `fetch` is the outcome of
`bc.cache.Get key`: `none` models the bigcache error path (key absent),
`some .undecodable` a payload that fails to unmarshal (miss, key purged),
`some (.enc e)` a decodable entry.  An expired entry is a miss (and is
purged); otherwise the entry is returned as a hit.  `IsFresh` is never
consulted. -/
def BigCache.Get (fetch : Option RawPayload) (now : Int) :
    Option CacheEntry × Bool :=
  match fetch with
  | none => (none, false)
  | some .undecodable => (none, false)
  | some (.enc entry) =>
    if entry.IsExpired now then (none, false) else (some entry, true)

/-- `BigCache.GetStale` (cache/l1/bigcache.go:99-117): same control flow as
`BigCache.Get` (the Go bodies differ only in logging/metrics calls). -/
def BigCache.GetStale (fetch : Option RawPayload) (now : Int) :
    Option CacheEntry × Bool :=
  match fetch with
  | none => (none, false)
  | some .undecodable => (none, false)
  | some (.enc entry) =>
    if entry.IsExpired now then (none, false) else (some entry, true)

/-- Outcome of `kc.client.Get(ctx, key).Result()` in the KeyDB backend:
`redis.Nil` (absent key), any other error (network/timeout), or raw data. -/
inductive KeyDBFetch where
  | redisNil
  | otherErr
  | ok (raw : RawPayload)
deriving Repr, DecidableEq

/-- `KeyDBCache.Get` (cache/l2/keydb.go:62-89): `redis.Nil` and other client
errors are both misses; an undecodable payload is a miss (key purged); an
expired entry is a miss (key purged); otherwise hit.  `IsFresh` is never
consulted. -/
def KeyDBCache.Get (fetch : KeyDBFetch) (now : Int) :
    Option CacheEntry × Bool :=
  match fetch with
  | .redisNil => (none, false)
  | .otherErr => (none, false)
  | .ok .undecodable => (none, false)
  | .ok (.enc entry) =>
    if entry.IsExpired now then (none, false) else (some entry, true)

/-- `KeyDBCache.GetStale` (cache/l2/keydb.go:92-118): same control flow as
`KeyDBCache.Get` (the Go bodies differ only in log messages). -/
def KeyDBCache.GetStale (fetch : KeyDBFetch) (now : Int) :
    Option CacheEntry × Bool :=
  match fetch with
  | .redisNil => (none, false)
  | .otherErr => (none, false)
  | .ok .undecodable => (none, false)
  | .ok (.enc entry) =>
    if entry.IsExpired now then (none, false) else (some entry, true)

/-- `BigCache.Set` (cache/l1/bigcache.go:120-152), as a function from the old
stored value to the new one (the Go method returns nothing: no error is ever
signalled to the caller).  `marshal` models `json.Marshal`, returning the
serialized size and payload or `none` on failure; `storeOk` models whether
`bc.cache.Set` succeeds.  Marshal failure, an entry larger than
`maxEntrySize`, and a store error all skip the write, leaving the old value. -/
def BigCache.Set (maxEntrySize : Nat)
    (marshal : CacheEntry → Option (Nat × RawPayload)) (storeOk : Bool)
    (old : Option RawPayload) (val : List Nat) (ttl : TTL) (now : Int) :
    Option RawPayload :=
  let entry := makeEntry val ttl now
  match marshal entry with
  | none => old
  | some (size, payload) =>
    if size > maxEntrySize then old
    else if storeOk then some payload else old

/-- `KeyDBCache.Set` (cache/l2/keydb.go:121-148), same shape as
`BigCache.Set` but with no size guard; the redis-level expiration
(`totalTTL`) is not modelled separately since hard expiry is already encoded
in the stored entry's `ExpiresAt`. -/
def KeyDBCache.Set (marshal : CacheEntry → Option (Nat × RawPayload))
    (storeOk : Bool) (old : Option RawPayload) (val : List Nat) (ttl : TTL)
    (now : Int) : Option RawPayload :=
  let entry := makeEntry val ttl now
  match marshal entry with
  | none => old
  | some (_, payload) => if storeOk then some payload else old

/-- A serialization model that always succeeds, reporting size 0 and an
exactly-decodable payload (used to instantiate `marshal` concretely). -/
def encOk : CacheEntry → Option (Nat × RawPayload) :=
  fun e => some (0, RawPayload.enc e)

/-- A serialization model that always fails (used to instantiate `marshal`
concretely on the marshal-error path). -/
def encFail : CacheEntry → Option (Nat × RawPayload) :=
  fun _ => none

/-- `CacheLevel` constants from `models/cache.go` (a `CacheLevel` is a Go
string). -/
def CacheLevelL1 : String := "L1"

/-- `CacheLevelL2` from `models/cache.go`. -/
def CacheLevelL2 : String := "L2"

/-- `CacheLevelMiss` from `models/cache.go`. -/
def CacheLevelMiss : String := "MISS"

/-- `CacheLevelFromIndex` (models/cache.go:87-100): negative indices fall back
to L1, index 0 is L1, index 1 is L2, index i is `"L" ++ (i+1)` otherwise. -/
def CacheLevelFromIndex (index : Int) : String :=
  if index < 0 then CacheLevelL1
  else if index = 0 then CacheLevelL1
  else if index = 1 then CacheLevelL2
  else "L" ++ toString (index + 1)

/-- `CacheResult` from `models/cache.go`. -/
structure CacheResult where
  entry : Option CacheEntry
  found : Bool
  level : String
deriving Repr, DecidableEq

/-- One tier of the orchestrator, seen through the read half of the
`cache.Cache` interface: the `(entry, found)` results its `Get` and
`GetStale` return for each key.  Writes (`Set`/`Delete`) issued by the
orchestrator are recorded as `Event`s instead of mutating the tier. -/
structure Backend where
  get : String → Option CacheEntry × Bool
  getStale : String → Option CacheEntry × Bool

/-- The backend not present: reads always miss (used as `getD` default). -/
def Backend.missing : Backend :=
  { get := fun _ => (none, false), getStale := fun _ => (none, false) }

/-- A call the orchestrator makes into tier number `tier`.  The trace of
events is the embedding of the orchestrator's side effects on its tiers. -/
inductive Event where
  | getE (tier : Nat) (key : String)
  | getStaleE (tier : Nat) (key : String)
  | setE (tier : Nat) (key : String) (val : List Nat) (ttl : TTL)
  | delE (tier : Nat) (key : String)
deriving Repr, DecidableEq

/-- Is the event a `Set` on some tier? -/
def Event.isSetE : Event → Bool
  | .setE _ _ _ _ => true
  | _ => false

/-- `MultiCache` (cache/multi): the ordered tier list and the propagation
flag fixed at construction by `NewMultiCache`. -/
structure MultiCache where
  caches : List Backend
  enablePropagation : Bool

/-- `MultiCache.propagateToEarlierCaches` (cache/multi):
skip when the entry pointer is nil or the entry is expired; skip when the
remaining TTL has neither fresh nor stale time left; otherwise
`caches[i].Set(key, entry.Data, remainingTTL)` for `i = 0 .. foundAtIndex-1`,
returned as the trace of `Set` events. -/
def MultiCache.propagateToEarlierCaches (key : String)
    (entry : Option CacheEntry) (foundAtIndex : Nat) (now : Int) :
    List Event :=
  match entry with
  | none => []
  | some e =>
    if e.IsExpired now then []
    else
      let remainingTTL := e.RemainingTTL now
      if remainingTTL.fresh ≤ 0 ∧ remainingTTL.stale ≤ 0 then []
      else (List.range foundAtIndex).map fun i =>
        Event.setE i key e.data remainingTTL

/-- The `for i, c := range mc.caches` loop of `MultiCache.GetWithLevel`,
carrying the current index: consult `c.Get key`; on a hit, propagate when
`i > 0` and propagation is enabled, and stop with the tier's result; on a
miss, continue with the next tier. -/
def MultiCache.getLoop (enableProp : Bool) (now : Int) (key : String) :
    Nat → List Backend → CacheResult × List Event
  | _, [] =>
    ({ entry := none, found := false, level := CacheLevelMiss }, [])
  | i, c :: rest =>
    let r := c.get key
    if r.2 then
      let pevs :=
        if 0 < i ∧ enableProp then
          MultiCache.propagateToEarlierCaches key r.1 i now
        else []
      ({ entry := r.1, found := true, level := CacheLevelFromIndex i },
       Event.getE i key :: pevs)
    else
      let rec' := MultiCache.getLoop enableProp now key (i + 1) rest
      (rec'.1, Event.getE i key :: rec'.2)

/-- The corresponding loop of `MultiCache.GetStaleWithLevel`, identical but
calling `c.GetStale` at each tier. -/
def MultiCache.getStaleLoop (enableProp : Bool) (now : Int) (key : String) :
    Nat → List Backend → CacheResult × List Event
  | _, [] =>
    ({ entry := none, found := false, level := CacheLevelMiss }, [])
  | i, c :: rest =>
    let r := c.getStale key
    if r.2 then
      let pevs :=
        if 0 < i ∧ enableProp then
          MultiCache.propagateToEarlierCaches key r.1 i now
        else []
      ({ entry := r.1, found := true, level := CacheLevelFromIndex i },
       Event.getStaleE i key :: pevs)
    else
      let rec' := MultiCache.getStaleLoop enableProp now key (i + 1) rest
      (rec'.1, Event.getStaleE i key :: rec'.2)

/-- `MultiCache.GetWithLevel` (cache/multi): empty tier list returns a MISS
result (after a warning, not modelled); otherwise the indexed loop over the
tiers. -/
def MultiCache.GetWithLevel (mc : MultiCache) (now : Int) (key : String) :
    CacheResult × List Event :=
  if mc.caches.length = 0 then
    ({ entry := none, found := false, level := CacheLevelMiss }, [])
  else
    MultiCache.getLoop mc.enablePropagation now key 0 mc.caches

/-- `MultiCache.GetStaleWithLevel` (cache/multi). -/
def MultiCache.GetStaleWithLevel (mc : MultiCache) (now : Int)
    (key : String) : CacheResult × List Event :=
  if mc.caches.length = 0 then
    ({ entry := none, found := false, level := CacheLevelMiss }, [])
  else
    MultiCache.getStaleLoop mc.enablePropagation now key 0 mc.caches

/-- `MultiCache.Get` (cache/multi): projection of `GetWithLevel` to
`(entry, found)`. -/
def MultiCache.Get (mc : MultiCache) (now : Int) (key : String) :
    (Option CacheEntry × Bool) × List Event :=
  let result := mc.GetWithLevel now key
  ((result.1.entry, result.1.found), result.2)

/-- `MultiCache.GetStale` (cache/multi): projection of `GetStaleWithLevel`. -/
def MultiCache.GetStale (mc : MultiCache) (now : Int) (key : String) :
    (Option CacheEntry × Bool) × List Event :=
  let result := mc.GetStaleWithLevel now key
  ((result.1.entry, result.1.found), result.2)

/-- The `for _, c := range mc.caches` loop of `MultiCache.Set`, carrying the
tier index to name the tier each `c.Set` call goes to. -/
def MultiCache.setLoop (key : String) (val : List Nat) (ttl : TTL) :
    Nat → List Backend → List Event
  | _, [] => []
  | i, _ :: rest =>
    Event.setE i key val ttl :: MultiCache.setLoop key val ttl (i + 1) rest

/-- `MultiCache.Set` (cache/multi): empty tier list is a no-op (after a
warning); otherwise `c.Set(key, val, ttl)` on every tier in order. -/
def MultiCache.Set (mc : MultiCache) (key : String) (val : List Nat)
    (ttl : TTL) : List Event :=
  if mc.caches.length = 0 then []
  else MultiCache.setLoop key val ttl 0 mc.caches

/-- The `for _, c := range mc.caches` loop of `MultiCache.Delete`. -/
def MultiCache.delLoop (key : String) : Nat → List Backend → List Event
  | _, [] => []
  | i, _ :: rest => Event.delE i key :: MultiCache.delLoop key (i + 1) rest

/-- `MultiCache.Delete` (cache/multi): empty tier list is a no-op (after a
warning); otherwise `c.Delete(key)` on every tier in order. -/
def MultiCache.Delete (mc : MultiCache) (key : String) : List Event :=
  if mc.caches.length = 0 then []
  else MultiCache.delLoop key 0 mc.caches

/-- `MultiCache.GetCacheCount` (cache/multi). -/
def MultiCache.GetCacheCount (mc : MultiCache) : Nat :=
  mc.caches.length

/-- Tier number `j` of a tier list; an out-of-range index reads as an
always-missing backend. -/
def nthB (cs : List Backend) (j : Nat) : Backend :=
  cs.getD j Backend.missing

theorem bigGet_eq_bigGetStale (fetch : Option RawPayload) (now : Int) :
    BigCache.Get fetch now = BigCache.GetStale fetch now := by
  cases fetch with
  | none => rfl
  | some raw => cases raw with
    | undecodable => rfl
    | enc e => rfl

theorem keyDBGet_eq_keyDBGetStale (fetch : KeyDBFetch) (now : Int) :
    KeyDBCache.Get fetch now = KeyDBCache.GetStale fetch now := by
  cases fetch with
  | redisNil => rfl
  | otherErr => rfl
  | ok raw => cases raw with
    | undecodable => rfl
    | enc e => rfl

theorem remainingTTL_fresh_nonneg (e : CacheEntry) (now : Int) :
    0 ≤ (e.RemainingTTL now).fresh := by
  simp only [CacheEntry.RemainingTTL]
  split <;> omega

theorem remainingTTL_stale_nonneg (e : CacheEntry) (now : Int) :
    0 ≤ (e.RemainingTTL now).stale := by
  simp only [CacheEntry.RemainingTTL]
  split <;> omega

/-- C8: for every entry and time `t`, `IsFresh e t` holds iff `t ≤ staleAt`,
`IsExpired e t` holds iff `t > expiresAt`, and under the constructive
invariant `staleAt ≤ expiresAt` every expired entry is non-fresh. -/
theorem isFresh_isExpired_characterization :
    (∀ (e : CacheEntry) (t : Int), e.IsFresh t = true ↔ t ≤ e.staleAt) ∧
    (∀ (e : CacheEntry) (t : Int), e.IsExpired t = true ↔ t > e.expiresAt) ∧
    (∀ (e : CacheEntry) (t : Int), e.staleAt ≤ e.expiresAt →
      e.IsExpired t = true → e.IsFresh t = false) := by
  refine ⟨?_, ?_, ?_⟩
  · intro e t
    simp [CacheEntry.IsFresh]
  · intro e t
    simp [CacheEntry.IsExpired]
  · intro e t hle hexp
    simp only [CacheEntry.IsExpired, decide_eq_true_eq] at hexp
    simp only [CacheEntry.IsFresh, decide_eq_false_iff_not, not_le]
    omega

/-- Witness for C8 at the concrete entry with `staleAt = 5 ≤ expiresAt = 10`
and `t = 20`. -/
theorem isFresh_isExpired_characterization_witness :
    CacheEntry.IsFresh
      { data := [], expiresAt := 10, staleAt := 5, createdAt := 0 } 20 = false :=
  isFresh_isExpired_characterization.2.2
    { data := [], expiresAt := 10, staleAt := 5, createdAt := 0 } 20
    (by decide) (by decide)

/-- C6: `RemainingTTL e now` has fresh component `max 0 (staleAt - now)`
(which shrinks as `now` grows) and stale component
`max 0 (expiresAt - staleAt)`, which does not depend on `now` at all. -/
theorem remainingTTL_formula :
    ∀ (e : CacheEntry) (now : Int),
      (e.RemainingTTL now).fresh = max 0 (e.staleAt - now) ∧
      (e.RemainingTTL now).stale = max 0 (e.expiresAt - e.staleAt) ∧
      (∀ t : Int, (e.RemainingTTL now).stale = (e.RemainingTTL t).stale) := by
  intro e now
  refine ⟨?_, ?_, ?_⟩
  · simp only [CacheEntry.RemainingTTL]
    split <;> omega
  · simp only [CacheEntry.RemainingTTL]
    split <;> omega
  · intro t
    simp only [CacheEntry.RemainingTTL]

/-- C2: L1 and L2 `Get` and `GetStale` all implement the same read: the two
methods of each backend agree on every fetch outcome, the two backends
agree under the correspondence between their fetch outcomes, a miss happens
exactly on absent key / client error, undecodable payload, or hard expiry
(`expiresAt < now`), and a stale-but-unexpired entry is a hit everywhere. -/
theorem l1_l2_get_getStale_equivalence :
    (∀ (fetch : Option RawPayload) (now : Int),
        BigCache.Get fetch now = BigCache.GetStale fetch now) ∧
    (∀ (fetch : KeyDBFetch) (now : Int),
        KeyDBCache.Get fetch now = KeyDBCache.GetStale fetch now) ∧
    (∀ (raw : RawPayload) (now : Int),
        KeyDBCache.Get (KeyDBFetch.ok raw) now = BigCache.Get (some raw) now) ∧
    (∀ now : Int,
        KeyDBCache.Get KeyDBFetch.redisNil now = BigCache.Get none now ∧
        KeyDBCache.Get KeyDBFetch.otherErr now = BigCache.Get none now) ∧
    (∀ (fetch : Option RawPayload) (now : Int),
        (BigCache.Get fetch now).2 = false ↔
          fetch = none ∨ fetch = some RawPayload.undecodable ∨
            ∃ e, fetch = some (RawPayload.enc e) ∧ e.expiresAt < now) ∧
    (∀ (e : CacheEntry) (now : Int),
        (BigCache.Get (some (RawPayload.enc e)) now = (some e, true) ↔
          now ≤ e.expiresAt) ∧
        (KeyDBCache.Get (KeyDBFetch.ok (RawPayload.enc e)) now = (some e, true) ↔
          now ≤ e.expiresAt)) := by
  refine ⟨bigGet_eq_bigGetStale, keyDBGet_eq_keyDBGetStale, ?_, ?_, ?_, ?_⟩
  · intro raw now
    cases raw <;> rfl
  · intro now
    exact ⟨rfl, rfl⟩
  · intro fetch now
    cases fetch with
    | none => simp [BigCache.Get]
    | some raw =>
      cases raw with
      | undecodable => simp [BigCache.Get]
      | enc e =>
        simp only [BigCache.Get, CacheEntry.IsExpired]
        by_cases h : e.expiresAt < now
        · rw [if_pos (by simpa [gt_iff_lt] using h)]
          simp only [reduceCtorEq, false_or]
          exact iff_of_true trivial (Or.inr ⟨e, rfl, h⟩)
        · rw [if_neg (by simpa [gt_iff_lt] using h)]
          simp only [reduceCtorEq, false_or, false_iff, not_or]
          refine ⟨by simp, ?_⟩
          rintro ⟨e2, he2, hlt⟩
          cases he2
          exact h hlt
  · intro e now
    constructor
    · simp only [BigCache.Get, CacheEntry.IsExpired]
      by_cases h : now ≤ e.expiresAt
      · rw [if_neg (by simpa using h)]
        simpa using h
      · rw [if_pos (by simpa using h)]
        simp [h]
    · simp only [KeyDBCache.Get, CacheEntry.IsExpired]
      by_cases h : now ≤ e.expiresAt
      · rw [if_neg (by simpa using h)]
        simpa using h
      · rw [if_pos (by simpa using h)]
        simp [h]

/-- C1 counterexample: `Set(k, [1], {fresh: 60s, stale: 30s})` at `t0 = 0`
stores the entry `{staleAt: 60, expiresAt: 90}`; `Get(k)` at `t0 + 70`
(no longer fresh, not yet hard-expired) returns the entry with
`found = true`, not `(nil, false)` as the claim states: `BigCache.Get` never
consults freshness. -/
theorem bigcache_get_ignores_freshness_counterexample :
    BigCache.Get
        (BigCache.Set 1048576 encOk true none [1] { fresh := 60, stale := 30 } 0)
        70
      = (some { data := [1], expiresAt := 90, staleAt := 60, createdAt := 0 },
         true) ∧
    BigCache.Get
        (BigCache.Set 1048576 encOk true none [1] { fresh := 60, stale := 30 } 0)
        70
      ≠ (none, false) := by
  constructor
  · decide
  · decide

/-- C1 amended: after `Set(k, d, {fresh: 60s, stale: 30s})` at `t0`, `Get(k)`
at `t0 + 70` returns `(entry, true)` even though the entry is no longer
fresh, exactly as `GetStale(k)` does: `Get` does not consult freshness, and
`Get` and `GetStale` agree on every fetch outcome (both miss only on absent
key, corruption, or hard expiry). -/
theorem bigcache_staleness_window_amended :
    ∀ (d : List Nat) (t0 : Int),
      BigCache.Get
          (BigCache.Set 1048576 encOk true none d { fresh := 60, stale := 30 } t0)
          (t0 + 70)
        = (some (makeEntry d { fresh := 60, stale := 30 } t0), true) ∧
      BigCache.GetStale
          (BigCache.Set 1048576 encOk true none d { fresh := 60, stale := 30 } t0)
          (t0 + 70)
        = (some (makeEntry d { fresh := 60, stale := 30 } t0), true) ∧
      (makeEntry d { fresh := 60, stale := 30 } t0).IsFresh (t0 + 70) = false ∧
      (∀ (fetch : Option RawPayload) (now : Int),
        BigCache.Get fetch now = BigCache.GetStale fetch now) := by
  intro d t0
  have hstore :
      BigCache.Set 1048576 encOk true none d { fresh := 60, stale := 30 } t0
        = some (RawPayload.enc (makeEntry d { fresh := 60, stale := 30 } t0)) := by
    rfl
  have hnotexp :
      (makeEntry d { fresh := 60, stale := 30 } t0).IsExpired (t0 + 70) = false := by
    simp only [makeEntry, CacheEntry.IsExpired, decide_eq_false_iff_not, not_lt,
      gt_iff_lt]
    omega
  refine ⟨?_, ?_, ?_, bigGet_eq_bigGetStale⟩
  · rw [hstore]
    simp [BigCache.Get, hnotexp]
  · rw [hstore, ← bigGet_eq_bigGetStale]
    simp [BigCache.Get, hnotexp]
  · simp only [makeEntry, CacheEntry.IsFresh, decide_eq_false_iff_not, not_le]
    omega

/-- C9: both backend `Set`s build the stored entry from the caller's relative
TTL at write time: `createdAt = now`, `staleAt = now + fresh`,
`expiresAt = staleAt + stale`; with a successful serialization and store the
stored payload is exactly that entry, and when both durations are
non-negative `createdAt ≤ staleAt ≤ expiresAt`. -/
theorem backend_set_absolute_timestamps :
    ∀ (val : List Nat) (ttl : TTL) (now : Int),
      (makeEntry val ttl now).createdAt = now ∧
      (makeEntry val ttl now).staleAt = now + ttl.fresh ∧
      (makeEntry val ttl now).expiresAt = (makeEntry val ttl now).staleAt + ttl.stale ∧
      (∀ (maxEntrySize : Nat) (storeOk : Bool) (old : Option RawPayload),
          BigCache.Set maxEntrySize encOk storeOk old val ttl now =
            if storeOk then some (RawPayload.enc (makeEntry val ttl now)) else old) ∧
      (∀ (storeOk : Bool) (old : Option RawPayload),
          KeyDBCache.Set encOk storeOk old val ttl now =
            if storeOk then some (RawPayload.enc (makeEntry val ttl now)) else old) ∧
      (0 ≤ ttl.fresh → 0 ≤ ttl.stale →
        (makeEntry val ttl now).createdAt ≤ (makeEntry val ttl now).staleAt ∧
        (makeEntry val ttl now).staleAt ≤ (makeEntry val ttl now).expiresAt) := by
  intro val ttl now
  refine ⟨rfl, rfl, ?_, ?_, ?_, ?_⟩
  · simp only [makeEntry]
  · intro maxEntrySize storeOk old
    simp only [BigCache.Set, encOk]
    rw [if_neg (by omega)]
  · intro storeOk old
    rfl
  · intro h1 h2
    simp only [makeEntry]
    omega

/-- Witness for C9 at `val = [1]`, `ttl = {60, 30}`, `now = 5`: discharges
the non-negativity hypotheses of the ordering conjunct. -/
theorem backend_set_absolute_timestamps_witness :
    (makeEntry [1] { fresh := 60, stale := 30 } 5).createdAt ≤
        (makeEntry [1] { fresh := 60, stale := 30 } 5).staleAt ∧
      (makeEntry [1] { fresh := 60, stale := 30 } 5).staleAt ≤
        (makeEntry [1] { fresh := 60, stale := 30 } 5).expiresAt :=
  (backend_set_absolute_timestamps [1] { fresh := 60, stale := 30 } 5).2.2.2.2.2
    (by decide) (by decide)

/-- A serialization model that always reports a 2000000-byte payload (used to
instantiate `marshal` concretely on the oversized path). -/
def encBig : CacheEntry → Option (Nat × RawPayload) :=
  fun e => some (2000000, RawPayload.enc e)

/-- C10: with zero tiers every orchestrator operation degrades benignly
(`GetWithLevel`/`GetStaleWithLevel` return a MISS result, `Get` a miss,
`Set`/`Delete` touch no backend), and a backend `Set` whose serialization
fails or whose serialized size exceeds the backend maximum leaves the store
unchanged — its return type is the store state, with no error channel back
to the caller. -/
theorem zero_tiers_and_silent_skip :
    (∀ (ep : Bool) (now : Int) (key : String),
        MultiCache.GetWithLevel { caches := [], enablePropagation := ep } now key
          = ({ entry := none, found := false, level := CacheLevelMiss }, []) ∧
        MultiCache.GetStaleWithLevel { caches := [], enablePropagation := ep } now key
          = ({ entry := none, found := false, level := CacheLevelMiss }, []) ∧
        MultiCache.Get { caches := [], enablePropagation := ep } now key
          = ((none, false), [])) ∧
    (∀ (ep : Bool) (key : String) (val : List Nat) (ttl : TTL),
        MultiCache.Set { caches := [], enablePropagation := ep } key val ttl = []) ∧
    (∀ (ep : Bool) (key : String),
        MultiCache.Delete { caches := [], enablePropagation := ep } key = []) ∧
    (∀ (maxEntrySize : Nat) (marshal : CacheEntry → Option (Nat × RawPayload))
        (storeOk : Bool) (old : Option RawPayload) (val : List Nat) (ttl : TTL)
        (now : Int),
        marshal (makeEntry val ttl now) = none →
        BigCache.Set maxEntrySize marshal storeOk old val ttl now = old) ∧
    (∀ (maxEntrySize : Nat) (marshal : CacheEntry → Option (Nat × RawPayload))
        (storeOk : Bool) (old : Option RawPayload) (val : List Nat) (ttl : TTL)
        (now : Int) (size : Nat) (payload : RawPayload),
        marshal (makeEntry val ttl now) = some (size, payload) →
        maxEntrySize < size →
        BigCache.Set maxEntrySize marshal storeOk old val ttl now = old) := by
  refine ⟨?_, ?_, ?_, ?_, ?_⟩
  · intro ep now key
    exact ⟨rfl, rfl, rfl⟩
  · intro ep key val ttl
    rfl
  · intro ep key
    rfl
  · intro maxEntrySize marshal storeOk old val ttl now h
    simp only [BigCache.Set, h]
  · intro maxEntrySize marshal storeOk old val ttl now size payload h hlt
    simp only [BigCache.Set, h]
    rw [if_pos (by omega)]

/-- Witness for C10: at `maxEntrySize = 1048576`, the 2000000-byte
serialization is skipped and the failing serialization is skipped, both
leaving the (empty) store unchanged. -/
theorem zero_tiers_and_silent_skip_witness :
    BigCache.Set 1048576 encBig true none [1] { fresh := 60, stale := 30 } 0
      = none ∧
    BigCache.Set 1048576 encFail true none [1] { fresh := 60, stale := 30 } 0
      = none :=
  ⟨zero_tiers_and_silent_skip.2.2.2.2 1048576 encBig true none [1]
      { fresh := 60, stale := 30 } 0 2000000
      (RawPayload.enc (makeEntry [1] { fresh := 60, stale := 30 } 0))
      rfl (by decide),
   zero_tiers_and_silent_skip.2.2.2.1 1048576 encFail true none [1]
      { fresh := 60, stale := 30 } 0 rfl⟩

theorem getLoop_all_miss (ep : Bool) (now : Int) (key : String) :
    ∀ (cs : List Backend) (i0 : Nat),
      (∀ j, j < cs.length → ((nthB cs j).get key).2 = false) →
      MultiCache.getLoop ep now key i0 cs =
        ({ entry := none, found := false, level := CacheLevelMiss },
         (List.range' i0 cs.length).map fun j => Event.getE j key) := by
  intro cs
  induction cs with
  | nil =>
    intro i0 _
    rfl
  | cons c rest ih =>
    intro i0 hmiss
    have h0 : (c.get key).2 = false := by
      simpa [nthB] using hmiss 0 (Nat.succ_pos rest.length)
    have hrest : ∀ j, j < rest.length → ((nthB rest j).get key).2 = false := by
      intro j hj
      simpa [nthB] using hmiss (j + 1) (Nat.succ_lt_succ hj)
    simp only [MultiCache.getLoop, h0, Bool.false_eq_true, if_false,
      ih (i0 + 1) hrest, List.length_cons, List.range'_succ, List.map_cons]

theorem getStaleLoop_all_miss (ep : Bool) (now : Int) (key : String) :
    ∀ (cs : List Backend) (i0 : Nat),
      (∀ j, j < cs.length → ((nthB cs j).getStale key).2 = false) →
      MultiCache.getStaleLoop ep now key i0 cs =
        ({ entry := none, found := false, level := CacheLevelMiss },
         (List.range' i0 cs.length).map fun j => Event.getStaleE j key) := by
  intro cs
  induction cs with
  | nil =>
    intro i0 _
    rfl
  | cons c rest ih =>
    intro i0 hmiss
    have h0 : (c.getStale key).2 = false := by
      simpa [nthB] using hmiss 0 (Nat.succ_pos rest.length)
    have hrest : ∀ j, j < rest.length → ((nthB rest j).getStale key).2 = false := by
      intro j hj
      simpa [nthB] using hmiss (j + 1) (Nat.succ_lt_succ hj)
    simp only [MultiCache.getStaleLoop, h0, Bool.false_eq_true, if_false,
      ih (i0 + 1) hrest, List.length_cons, List.range'_succ, List.map_cons]

theorem getLoop_first_hit (ep : Bool) (now : Int) (key : String) :
    ∀ (cs : List Backend) (k i0 : Nat),
      k < cs.length →
      (∀ j, j < k → ((nthB cs j).get key).2 = false) →
      ((nthB cs k).get key).2 = true →
      MultiCache.getLoop ep now key i0 cs =
        ({ entry := ((nthB cs k).get key).1, found := true,
           level := CacheLevelFromIndex (↑(i0 + k)) },
         ((List.range' i0 (k + 1)).map fun j => Event.getE j key) ++
           (if 0 < i0 + k ∧ ep then
              MultiCache.propagateToEarlierCaches key ((nthB cs k).get key).1
                (i0 + k) now
            else [])) := by
  intro cs
  induction cs with
  | nil =>
    intro k i0 hk
    simp at hk
  | cons c rest ih =>
    intro k i0 hk hmiss hhit
    cases k with
    | zero =>
      have h0 : (c.get key).2 = true := by
        simpa [nthB] using hhit
      simp only [MultiCache.getLoop, h0, if_true, nthB, List.getD_cons_zero,
        Nat.add_zero, List.map_cons, List.map_nil, List.singleton_append]
      norm_num [List.range'_one]
    | succ k =>
      have h0 : (c.get key).2 = false := by
        simpa [nthB] using hmiss 0 (Nat.succ_pos k)
      have hmiss2 : ∀ j, j < k → ((nthB rest j).get key).2 = false := by
        intro j hj
        simpa [nthB] using hmiss (j + 1) (Nat.succ_lt_succ hj)
      have hhit2 : ((nthB rest k).get key).2 = true := by
        simpa [nthB] using hhit
      have hk2 : k < rest.length := Nat.lt_of_succ_lt_succ hk
      have harith : i0 + 1 + k = i0 + (k + 1) := by omega
      simp only [MultiCache.getLoop, h0, Bool.false_eq_true, if_false,
        ih k (i0 + 1) hk2 hmiss2 hhit2, harith, nthB, List.getD_cons_succ,
        List.range'_succ, List.map_cons, List.cons_append]

theorem getStaleLoop_first_hit (ep : Bool) (now : Int) (key : String) :
    ∀ (cs : List Backend) (k i0 : Nat),
      k < cs.length →
      (∀ j, j < k → ((nthB cs j).getStale key).2 = false) →
      ((nthB cs k).getStale key).2 = true →
      MultiCache.getStaleLoop ep now key i0 cs =
        ({ entry := ((nthB cs k).getStale key).1, found := true,
           level := CacheLevelFromIndex (↑(i0 + k)) },
         ((List.range' i0 (k + 1)).map fun j => Event.getStaleE j key) ++
           (if 0 < i0 + k ∧ ep then
              MultiCache.propagateToEarlierCaches key ((nthB cs k).getStale key).1
                (i0 + k) now
            else [])) := by
  intro cs
  induction cs with
  | nil =>
    intro k i0 hk
    simp at hk
  | cons c rest ih =>
    intro k i0 hk hmiss hhit
    cases k with
    | zero =>
      have h0 : (c.getStale key).2 = true := by
        simpa [nthB] using hhit
      simp only [MultiCache.getStaleLoop, h0, if_true, nthB, List.getD_cons_zero,
        Nat.add_zero, List.map_cons, List.map_nil, List.singleton_append]
      norm_num [List.range'_one]
    | succ k =>
      have h0 : (c.getStale key).2 = false := by
        simpa [nthB] using hmiss 0 (Nat.succ_pos k)
      have hmiss2 : ∀ j, j < k → ((nthB rest j).getStale key).2 = false := by
        intro j hj
        simpa [nthB] using hmiss (j + 1) (Nat.succ_lt_succ hj)
      have hhit2 : ((nthB rest k).getStale key).2 = true := by
        simpa [nthB] using hhit
      have hk2 : k < rest.length := Nat.lt_of_succ_lt_succ hk
      have harith : i0 + 1 + k = i0 + (k + 1) := by omega
      simp only [MultiCache.getStaleLoop, h0, Bool.false_eq_true, if_false,
        ih k (i0 + 1) hk2 hmiss2 hhit2, harith, nthB, List.getD_cons_succ,
        List.range'_succ, List.map_cons, List.cons_append]

/-- C3: in a level-aware read, tiers are consulted in ascending index order,
the first tier reporting found stops the scan (the trace holds get events
for exactly the indices `0..k`), the result is
`{entry, found: true, level: CacheLevelFromIndex k}` for the hit index `k`,
and when every tier misses the result is
`{entry: nil, found: false, level: MISS}` after consulting every tier; the
same holds for the stale variant. -/
theorem getWithLevel_consults_in_order :
    (∀ (mc : MultiCache) (now : Int) (key : String) (k : Nat),
        k < mc.caches.length →
        (∀ j, j < k → ((nthB mc.caches j).get key).2 = false) →
        ((nthB mc.caches k).get key).2 = true →
        mc.GetWithLevel now key =
          ({ entry := ((nthB mc.caches k).get key).1, found := true,
             level := CacheLevelFromIndex (↑k) },
           ((List.range (k + 1)).map fun j => Event.getE j key) ++
             (if 0 < k ∧ mc.enablePropagation then
                MultiCache.propagateToEarlierCaches key
                  ((nthB mc.caches k).get key).1 k now
              else []))) ∧
    (∀ (mc : MultiCache) (now : Int) (key : String),
        (∀ j, j < mc.caches.length → ((nthB mc.caches j).get key).2 = false) →
        mc.GetWithLevel now key =
          ({ entry := none, found := false, level := CacheLevelMiss },
           (List.range mc.caches.length).map fun j => Event.getE j key)) ∧
    (∀ (mc : MultiCache) (now : Int) (key : String) (k : Nat),
        k < mc.caches.length →
        (∀ j, j < k → ((nthB mc.caches j).getStale key).2 = false) →
        ((nthB mc.caches k).getStale key).2 = true →
        mc.GetStaleWithLevel now key =
          ({ entry := ((nthB mc.caches k).getStale key).1, found := true,
             level := CacheLevelFromIndex (↑k) },
           ((List.range (k + 1)).map fun j => Event.getStaleE j key) ++
             (if 0 < k ∧ mc.enablePropagation then
                MultiCache.propagateToEarlierCaches key
                  ((nthB mc.caches k).getStale key).1 k now
              else []))) ∧
    (∀ (mc : MultiCache) (now : Int) (key : String),
        (∀ j, j < mc.caches.length → ((nthB mc.caches j).getStale key).2 = false) →
        mc.GetStaleWithLevel now key =
          ({ entry := none, found := false, level := CacheLevelMiss },
           (List.range mc.caches.length).map fun j => Event.getStaleE j key)) := by
  refine ⟨?_, ?_, ?_, ?_⟩
  · intro mc now key k hk hmiss hhit
    unfold MultiCache.GetWithLevel
    rw [if_neg (by omega)]
    have h := getLoop_first_hit mc.enablePropagation now key mc.caches k 0 hk hmiss hhit
    rw [h]
    simp [List.range_eq_range']
  · intro mc now key hmiss
    unfold MultiCache.GetWithLevel
    by_cases hlen : mc.caches.length = 0
    · rw [if_pos hlen, hlen]
      rfl
    · rw [if_neg hlen]
      rw [getLoop_all_miss mc.enablePropagation now key mc.caches 0 hmiss]
      simp [List.range_eq_range']
  · intro mc now key k hk hmiss hhit
    unfold MultiCache.GetStaleWithLevel
    rw [if_neg (by omega)]
    have h := getStaleLoop_first_hit mc.enablePropagation now key mc.caches k 0 hk hmiss hhit
    rw [h]
    simp [List.range_eq_range']
  · intro mc now key hmiss
    unfold MultiCache.GetStaleWithLevel
    by_cases hlen : mc.caches.length = 0
    · rw [if_pos hlen, hlen]
      rfl
    · rw [if_neg hlen]
      rw [getStaleLoop_all_miss mc.enablePropagation now key mc.caches 0 hmiss]
      simp [List.range_eq_range']

/-- A concrete entry fixture: written at 0, stale at 60, expired after 90. -/
def entry0 : CacheEntry :=
  { data := [1], expiresAt := 90, staleAt := 60, createdAt := 0 }

/-- A tier fixture that always hits with `entry0`. -/
def tierHit : Backend :=
  { get := fun _ => (some entry0, true), getStale := fun _ => (some entry0, true) }

/-- A two-tier orchestrator fixture with propagation enabled: tier 0 always
misses, tier 1 always hits with `entry0`. -/
def mc2 : MultiCache :=
  { caches := [Backend.missing, tierHit], enablePropagation := true }

/-- The same two-tier fixture with propagation disabled. -/
def mc2noProp : MultiCache :=
  { caches := [Backend.missing, tierHit], enablePropagation := false }

/-- Witness for C3 on the concrete two-tier fixture: the hit at tier 1 yields
level L2 after consulting tiers 0 and 1 only, followed by the propagation
write to tier 0 with the remaining TTL at time 10. -/
theorem getWithLevel_consults_in_order_witness :
    mc2.GetWithLevel 10 "k" =
      ({ entry := some entry0, found := true, level := CacheLevelL2 },
       [Event.getE 0 "k", Event.getE 1 "k",
        Event.setE 0 "k" [1] { fresh := 50, stale := 30 }]) := by
  have h := getWithLevel_consults_in_order.1 mc2 10 "k" 1 (by decide)
    (fun j hj => by
      have hj0 : j = 0 := by omega
      subst hj0
      decide)
    (by decide)
  rw [h]
  decide

/-- C4: `propagateToEarlierCaches(key, entry, foundAtIndex)` writes nothing
when the entry is expired, or when its remaining TTL has both components at
0; otherwise it issues `set(key, entry.data, remainingTTL)` on exactly the
tiers `0 .. foundAtIndex - 1` — the remaining TTL, not the original — and no
set it produces targets a tier index `≥ foundAtIndex`. -/
theorem propagateToEarlierCaches_spec :
    (∀ (key : String) (e : CacheEntry) (i : Nat) (now : Int),
        e.IsExpired now = true →
        MultiCache.propagateToEarlierCaches key (some e) i now = []) ∧
    (∀ (key : String) (e : CacheEntry) (i : Nat) (now : Int),
        (e.RemainingTTL now).fresh = 0 → (e.RemainingTTL now).stale = 0 →
        MultiCache.propagateToEarlierCaches key (some e) i now = []) ∧
    (∀ (key : String) (e : CacheEntry) (i : Nat) (now : Int),
        e.IsExpired now = false →
        ¬((e.RemainingTTL now).fresh = 0 ∧ (e.RemainingTTL now).stale = 0) →
        MultiCache.propagateToEarlierCaches key (some e) i now =
          (List.range i).map fun j => Event.setE j key e.data (e.RemainingTTL now)) ∧
    (∀ (key : String) (entry : Option CacheEntry) (i : Nat) (now : Int)
        (j : Nat) (k2 : String) (d : List Nat) (t : TTL),
        Event.setE j k2 d t ∈ MultiCache.propagateToEarlierCaches key entry i now →
        j < i) := by
  refine ⟨?_, ?_, ?_, ?_⟩
  · intro key e i now h
    simp [MultiCache.propagateToEarlierCaches, h]
  · intro key e i now h1 h2
    unfold MultiCache.propagateToEarlierCaches
    by_cases hexp : e.IsExpired now
    · simp [hexp]
    · simp only [hexp, Bool.false_eq_true, if_false]
      rw [if_pos ⟨le_of_eq h1, le_of_eq h2⟩]
  · intro key e i now hexp hrem
    unfold MultiCache.propagateToEarlierCaches
    simp only [hexp, Bool.false_eq_true, if_false]
    rw [if_neg]
    have hf := remainingTTL_fresh_nonneg e now
    have hs := remainingTTL_stale_nonneg e now
    intro ⟨hle1, hle2⟩
    exact hrem ⟨le_antisymm hle1 hf, le_antisymm hle2 hs⟩
  · intro key entry i now j k2 d t hmem
    cases entry with
    | none => simp [MultiCache.propagateToEarlierCaches] at hmem
    | some e =>
      unfold MultiCache.propagateToEarlierCaches at hmem
      by_cases hexp : e.IsExpired now
      · simp [hexp] at hmem
      · simp only [hexp, Bool.false_eq_true, if_false] at hmem
        by_cases hrem : (e.RemainingTTL now).fresh ≤ 0 ∧ (e.RemainingTTL now).stale ≤ 0
        · rw [if_pos hrem] at hmem
          simp at hmem
        · rw [if_neg hrem] at hmem
          simp only [List.mem_map, List.mem_range, Event.setE.injEq] at hmem
          obtain ⟨j2, hj2, hj2eq, -⟩ := hmem
          omega

/-- Witness for C4: `entry0` found at tier index 2 at time 10 (not expired,
remaining TTL `{50, 30}`) is written to tiers 0 and 1 with the remaining
TTL. -/
theorem propagateToEarlierCaches_spec_witness :
    MultiCache.propagateToEarlierCaches "k" (some entry0) 2 10 =
      [Event.setE 0 "k" [1] { fresh := 50, stale := 30 },
       Event.setE 1 "k" [1] { fresh := 50, stale := 30 }] := by
  have h := propagateToEarlierCaches_spec.2.2.1 "k" entry0 2 10 (by decide)
    (by decide)
  rw [h]
  decide

theorem filter_isSetE_map_getE (key : String) (l : List Nat) :
    (l.map fun j => Event.getE j key).filter Event.isSetE = [] := by
  induction l with
  | nil => rfl
  | cons a tl ih => simp [Event.isSetE, ih]

theorem filter_isSetE_map_getStaleE (key : String) (l : List Nat) :
    (l.map fun j => Event.getStaleE j key).filter Event.isSetE = [] := by
  induction l with
  | nil => rfl
  | cons a tl ih => simp [Event.isSetE, ih]

theorem filter_isSetE_map_setE (key : String) (d : List Nat) (t : TTL)
    (l : List Nat) :
    (l.map fun j => Event.setE j key d t).filter Event.isSetE =
      l.map fun j => Event.setE j key d t := by
  induction l with
  | nil => rfl
  | cons a tl ih => simp [Event.isSetE, ih]

theorem filter_isSetE_propagate (key : String) (entry : Option CacheEntry)
    (i : Nat) (now : Int) :
    (MultiCache.propagateToEarlierCaches key entry i now).filter Event.isSetE =
      MultiCache.propagateToEarlierCaches key entry i now := by
  cases entry with
  | none => rfl
  | some e =>
    unfold MultiCache.propagateToEarlierCaches
    by_cases hexp : e.IsExpired now
    · simp [hexp]
    · simp only [hexp, Bool.false_eq_true, if_false]
      by_cases hrem : (e.RemainingTTL now).fresh ≤ 0 ∧ (e.RemainingTTL now).stale ≤ 0
      · rw [if_pos hrem]
        rfl
      · rw [if_neg hrem]
        exact filter_isSetE_map_setE key e.data (e.RemainingTTL now) (List.range i)

theorem getLoop_no_setE_of_disabled (now : Int) (key : String) :
    ∀ (cs : List Backend) (i0 : Nat),
      (MultiCache.getLoop false now key i0 cs).2.filter Event.isSetE = [] := by
  intro cs
  induction cs with
  | nil => intro i0; rfl
  | cons c rest ih =>
    intro i0
    simp only [MultiCache.getLoop]
    by_cases h : (c.get key).2
    · simp [h, Event.isSetE]
    · simp only [Bool.not_eq_true] at h
      simp [h, Event.isSetE, ih (i0 + 1)]

theorem getStaleLoop_no_setE_of_disabled (now : Int) (key : String) :
    ∀ (cs : List Backend) (i0 : Nat),
      (MultiCache.getStaleLoop false now key i0 cs).2.filter Event.isSetE = [] := by
  intro cs
  induction cs with
  | nil => intro i0; rfl
  | cons c rest ih =>
    intro i0
    simp only [MultiCache.getStaleLoop]
    by_cases h : (c.getStale key).2
    · simp [h, Event.isSetE]
    · simp only [Bool.not_eq_true] at h
      simp [h, Event.isSetE, ih (i0 + 1)]

/-- C5: propagation onto earlier tiers is attempted exactly on a hit at tier
index `k > 0` with the propagation flag enabled, from both the fresh and the
stale read path: the set events in a read trace are the
`propagateToEarlierCaches` calls when `0 < k` and the flag is on and nothing
otherwise; with the flag disabled no read — fresh or stale, hit or miss —
produces any set on any tier. -/
theorem propagation_trigger_spec :
    (∀ (mc : MultiCache) (now : Int) (key : String),
        mc.enablePropagation = false →
        (mc.GetWithLevel now key).2.filter Event.isSetE = [] ∧
        (mc.GetStaleWithLevel now key).2.filter Event.isSetE = []) ∧
    (∀ (mc : MultiCache) (now : Int) (key : String) (k : Nat),
        k < mc.caches.length →
        (∀ j, j < k → ((nthB mc.caches j).get key).2 = false) →
        ((nthB mc.caches k).get key).2 = true →
        (mc.GetWithLevel now key).2.filter Event.isSetE =
          (if 0 < k ∧ mc.enablePropagation then
             MultiCache.propagateToEarlierCaches key
               ((nthB mc.caches k).get key).1 k now
           else [])) ∧
    (∀ (mc : MultiCache) (now : Int) (key : String) (k : Nat),
        k < mc.caches.length →
        (∀ j, j < k → ((nthB mc.caches j).getStale key).2 = false) →
        ((nthB mc.caches k).getStale key).2 = true →
        (mc.GetStaleWithLevel now key).2.filter Event.isSetE =
          (if 0 < k ∧ mc.enablePropagation then
             MultiCache.propagateToEarlierCaches key
               ((nthB mc.caches k).getStale key).1 k now
           else [])) ∧
    (∀ (mc : MultiCache) (now : Int) (key : String),
        (∀ j, j < mc.caches.length → ((nthB mc.caches j).get key).2 = false) →
        (mc.GetWithLevel now key).2.filter Event.isSetE = []) ∧
    (∀ (mc : MultiCache) (now : Int) (key : String),
        (∀ j, j < mc.caches.length → ((nthB mc.caches j).getStale key).2 = false) →
        (mc.GetStaleWithLevel now key).2.filter Event.isSetE = []) := by
  refine ⟨?_, ?_, ?_, ?_, ?_⟩
  · intro mc now key hp
    constructor
    · unfold MultiCache.GetWithLevel
      by_cases hlen : mc.caches.length = 0
      · rw [if_pos hlen]
        rfl
      · rw [if_neg hlen, hp]
        exact getLoop_no_setE_of_disabled now key mc.caches 0
    · unfold MultiCache.GetStaleWithLevel
      by_cases hlen : mc.caches.length = 0
      · rw [if_pos hlen]
        rfl
      · rw [if_neg hlen, hp]
        exact getStaleLoop_no_setE_of_disabled now key mc.caches 0
  · intro mc now key k hk hmiss hhit
    unfold MultiCache.GetWithLevel
    rw [if_neg (by omega),
      getLoop_first_hit mc.enablePropagation now key mc.caches k 0 hk hmiss hhit]
    simp only [List.filter_append, filter_isSetE_map_getE]
    rw [List.nil_append]
    by_cases hcond : 0 < 0 + k ∧ mc.enablePropagation
    · rw [if_pos hcond, if_pos (by simpa using hcond), Nat.zero_add,
        filter_isSetE_propagate]
    · rw [if_neg hcond, if_neg (by simpa using hcond)]
      rfl
  · intro mc now key k hk hmiss hhit
    unfold MultiCache.GetStaleWithLevel
    rw [if_neg (by omega),
      getStaleLoop_first_hit mc.enablePropagation now key mc.caches k 0 hk hmiss hhit]
    simp only [List.filter_append, filter_isSetE_map_getStaleE]
    rw [List.nil_append]
    by_cases hcond : 0 < 0 + k ∧ mc.enablePropagation
    · rw [if_pos hcond, if_pos (by simpa using hcond), Nat.zero_add,
        filter_isSetE_propagate]
    · rw [if_neg hcond, if_neg (by simpa using hcond)]
      rfl
  · intro mc now key hmiss
    unfold MultiCache.GetWithLevel
    by_cases hlen : mc.caches.length = 0
    · rw [if_pos hlen]
      rfl
    · rw [if_neg hlen, getLoop_all_miss mc.enablePropagation now key mc.caches 0 hmiss]
      exact filter_isSetE_map_getE key (List.range' 0 mc.caches.length)
  · intro mc now key hmiss
    unfold MultiCache.GetStaleWithLevel
    by_cases hlen : mc.caches.length = 0
    · rw [if_pos hlen]
      rfl
    · rw [if_neg hlen,
        getStaleLoop_all_miss mc.enablePropagation now key mc.caches 0 hmiss]
      exact filter_isSetE_map_getStaleE key (List.range' 0 mc.caches.length)

/-- Witness for C5: on the two-tier fixture with propagation disabled,
neither the fresh nor the stale read produces any set event. -/
theorem propagation_trigger_spec_witness :
    (mc2noProp.GetWithLevel 10 "k").2.filter Event.isSetE = [] ∧
    (mc2noProp.GetStaleWithLevel 10 "k").2.filter Event.isSetE = [] :=
  propagation_trigger_spec.1 mc2noProp 10 "k" rfl

theorem setLoop_eq_map (key : String) (val : List Nat) (ttl : TTL) :
    ∀ (cs : List Backend) (i0 : Nat),
      MultiCache.setLoop key val ttl i0 cs =
        (List.range' i0 cs.length).map fun i => Event.setE i key val ttl := by
  intro cs
  induction cs with
  | nil => intro i0; rfl
  | cons c rest ih =>
    intro i0
    simp only [MultiCache.setLoop, ih (i0 + 1), List.length_cons,
      List.range'_succ, List.map_cons]

theorem delLoop_eq_map (key : String) :
    ∀ (cs : List Backend) (i0 : Nat),
      MultiCache.delLoop key i0 cs =
        (List.range' i0 cs.length).map fun i => Event.delE i key := by
  intro cs
  induction cs with
  | nil => intro i0; rfl
  | cons c rest ih =>
    intro i0
    simp only [MultiCache.delLoop, ih (i0 + 1), List.length_cons,
      List.range'_succ, List.map_cons]

/-- C7: `Set(key, val, ttl)` issues `set(key, val, ttl)` on every tier
`0..N-1` unconditionally — the trace depends only on the number of tiers,
never on any tier's state or outcome — and `Delete(key)` issues a delete on
every configured tier. -/
theorem multiCache_set_delete_fanout :
    ∀ (mc : MultiCache) (key : String) (val : List Nat) (ttl : TTL),
      mc.Set key val ttl =
        (List.range mc.caches.length).map (fun i => Event.setE i key val ttl) ∧
      mc.Delete key =
        (List.range mc.caches.length).map (fun i => Event.delE i key) ∧
      (∀ i, i < mc.caches.length →
        Event.setE i key val ttl ∈ mc.Set key val ttl ∧
        Event.delE i key ∈ mc.Delete key) := by
  intro mc key val ttl
  have hset : mc.Set key val ttl =
      (List.range mc.caches.length).map (fun i => Event.setE i key val ttl) := by
    unfold MultiCache.Set
    by_cases hlen : mc.caches.length = 0
    · rw [if_pos hlen, hlen]
      rfl
    · rw [if_neg hlen, setLoop_eq_map key val ttl mc.caches 0,
        List.range_eq_range']
  have hdel : mc.Delete key =
      (List.range mc.caches.length).map (fun i => Event.delE i key) := by
    unfold MultiCache.Delete
    by_cases hlen : mc.caches.length = 0
    · rw [if_pos hlen, hlen]
      rfl
    · rw [if_neg hlen, delLoop_eq_map key mc.caches 0, List.range_eq_range']
  refine ⟨hset, hdel, ?_⟩
  intro i hi
  constructor
  · rw [hset]
    exact List.mem_map.mpr ⟨i, List.mem_range.mpr hi, rfl⟩
  · rw [hdel]
    exact List.mem_map.mpr ⟨i, List.mem_range.mpr hi, rfl⟩

/-- Witness for C7 on the two-tier fixture: the write and the delete both
reach tier 1. -/
theorem multiCache_set_delete_fanout_witness :
    Event.setE 1 "k" [2] { fresh := 1, stale := 2 } ∈
        mc2.Set "k" [2] { fresh := 1, stale := 2 } ∧
      Event.delE 1 "k" ∈ mc2.Delete "k" :=
  (multiCache_set_delete_fanout mc2 "k" [2] { fresh := 1, stale := 2 }).2.2 1
    (by decide)
